import Mathlib

/-!
Verification of the cdxresume log-ingestion and text-width core.

JavaScript strings are sequences of UTF-16 code units, which may contain
lone surrogates; Lean `String` cannot represent those, so the text-width
module (`src/utils/charWidth.ts`, `src/utils/strictTruncate.ts`) is
embedded over `List Nat`, one element per UTF-16 code unit.
JavaScript numbers used for widths are embedded as `Int` where the source
computes a possibly negative quantity (`maxWidth - 3`).
-/

/-- The three-dot ellipsis "..." as UTF-16 code units. -/
def ellipsis : List Nat := [46, 46, 46]

/-- Code unit is a UTF-16 high surrogate (0xD800..0xDBFF). -/
def isHighSurrogate (c : Nat) : Bool := 0xD800 ≤ c && c ≤ 0xDBFF

/-- Code unit is a UTF-16 low surrogate (0xDC00..0xDFFF). -/
def isLowSurrogate (c : Nat) : Bool := 0xDC00 ≤ c && c ≤ 0xDFFF

/-- Emoji block test of `getCharWidth` (the chain of range checks returning 2
before the CJK chain). -/
def isEmojiBlock (code : Nat) : Bool :=
  (0x2600 ≤ code && code ≤ 0x27BF) ||
  (0x2300 ≤ code && code ≤ 0x23FF) ||
  (0x2B00 ≤ code && code ≤ 0x2BFF) ||
  (0x2100 ≤ code && code ≤ 0x214F) ||
  (0x2190 ≤ code && code ≤ 0x21FF) ||
  (0x25A0 ≤ code && code ≤ 0x25FF) ||
  (0x2700 ≤ code && code ≤ 0x27BF) ||
  (0x1F300 ≤ code && code ≤ 0x1F5FF) ||
  (0x1F600 ≤ code && code ≤ 0x1F64F) ||
  (0x1F680 ≤ code && code ≤ 0x1F6FF) ||
  (0x1F700 ≤ code && code ≤ 0x1F77F) ||
  (0x1F780 ≤ code && code ≤ 0x1F7FF) ||
  (0x1F800 ≤ code && code ≤ 0x1F8FF) ||
  (0x1F900 ≤ code && code ≤ 0x1F9FF) ||
  (0x1FA00 ≤ code && code ≤ 0x1FA6F) ||
  (0x1FA70 ≤ code && code ≤ 0x1FAFF)

/-- CJK / full-width block test of `getCharWidth`. -/
def isCjkBlock (code : Nat) : Bool :=
  (0x4E00 ≤ code && code ≤ 0x9FFF) ||
  (0x3040 ≤ code && code ≤ 0x309F) ||
  (0x30A0 ≤ code && code ≤ 0x30FF) ||
  (0xAC00 ≤ code && code ≤ 0xD7AF) ||
  (0xFF00 ≤ code && code ≤ 0xFFEF) ||
  (0x3000 ≤ code && code ≤ 0x303F) ||
  (0xFE30 ≤ code && code ≤ 0xFE4F) ||
  (0xFE50 ≤ code && code ≤ 0xFE6F) ||
  (0x3200 ≤ code && code ≤ 0x32FF) ||
  (0x3300 ≤ code && code ≤ 0x33FF) ||
  (0x3400 ≤ code && code ≤ 0x4DBF) ||
  (0x20000 ≤ code && code ≤ 0x2A6DF) ||
  (0x2A700 ≤ code && code ≤ 0x2B73F) ||
  (0x2B740 ≤ code && code ≤ 0x2B81F) ||
  (0x2B820 ≤ code && code ≤ 0x2CEAF) ||
  (0x2CEB0 ≤ code && code ≤ 0x2EBEF) ||
  (0x30000 ≤ code && code ≤ 0x3134F)

/-- Embedding of `getCharWidth` (charWidth.ts lines 1-72). The argument is
the JS string as code units; the function looks only at charCodeAt(0) and,
for a high surrogate, at charCodeAt(1). In the source both the paired and
the unpaired high-surrogate branch return 2, so the inner check collapses. -/
def getCharWidth (char : List Nat) : Nat :=
  match char with
  | [] => 0
  | code :: _rest =>
    if code ≤ 0x7F then 1
    else if isHighSurrogate code then 2
    else if isLowSurrogate code then 0
    else if isEmojiBlock code then 2
    else if isCjkBlock code then 2
    else 1

/-- Embedding of `getStringWidth` (charWidth.ts lines 74-100): scan code
units left to right, consuming a valid surrogate pair as one unit of width
2, otherwise a single unit measured by `getCharWidth` on the one-unit
string `str[i]`. -/
def getStringWidth : List Nat → Nat
  | [] => 0
  | [c] => getCharWidth [c]
  | c :: low :: rest =>
    if isHighSurrogate c && isLowSurrogate low then 2 + getStringWidth rest
    else getCharWidth [c] + getStringWidth (low :: rest)

/-- The while loop of `truncateStringByWidth` (charWidth.ts lines 109-143),
with the accumulated `width`, `result` and the remaining code units made
explicit. On overflow it returns `result ++ "..."`. -/
def truncateLoop (maxWidth : Int) (width : Nat) (result : List Nat) :
    List Nat → List Nat
  | [] => result
  | [c] =>
    if (width : Int) + getCharWidth [c] > maxWidth - 3 then result ++ ellipsis
    else result ++ [c]
  | c :: low :: rest =>
    if isHighSurrogate c && isLowSurrogate low then
      if (width : Int) + 2 > maxWidth - 3 then result ++ ellipsis
      else truncateLoop maxWidth (width + 2) (result ++ [c, low]) rest
    else
      if (width : Int) + getCharWidth [c] > maxWidth - 3 then result ++ ellipsis
      else truncateLoop maxWidth (width + getCharWidth [c]) (result ++ [c]) (low :: rest)

/-- Embedding of `truncateStringByWidth` (charWidth.ts lines 102-144). -/
def truncateStringByWidth (str : List Nat) (maxWidth : Int) : List Nat :=
  if str = [] then [] else truncateLoop maxWidth 0 [] str

/-- The while loop of `strictTruncateByWidth` (strictTruncate.ts lines
19-58). On overflow it returns `result ++ "..."` when some characters were
already kept, and just `"..."` otherwise. -/
def strictLoop (effectiveMaxWidth : Int) (width : Nat) (result : List Nat) :
    List Nat → List Nat
  | [] => result
  | [c] =>
    if (width : Int) + getCharWidth [c] > effectiveMaxWidth then
      if 0 < result.length then result ++ ellipsis else ellipsis
    else result ++ [c]
  | c :: low :: rest =>
    if isHighSurrogate c && isLowSurrogate low then
      if (width : Int) + 2 > effectiveMaxWidth then
        if 0 < result.length then result ++ ellipsis else ellipsis
      else strictLoop effectiveMaxWidth (width + 2) (result ++ [c, low]) rest
    else
      if (width : Int) + getCharWidth [c] > effectiveMaxWidth then
        if 0 < result.length then result ++ ellipsis else ellipsis
      else strictLoop effectiveMaxWidth (width + getCharWidth [c]) (result ++ [c]) (low :: rest)

/-- Embedding of `strictTruncateByWidth` (strictTruncate.ts lines 8-61):
empty input or `maxWidth <= 0` yield the empty string, otherwise the loop
runs with `effectiveMaxWidth = maxWidth - 3`. -/
def strictTruncateByWidth (str : List Nat) (maxWidth : Int) : List Nat :=
  if str = [] ∨ maxWidth ≤ 0 then [] else strictLoop (maxWidth - 3) 0 [] str

/-!
The no-split property of the truncation functions is phrased through the
position of the cut: an output of the form `s.take k` (optionally followed
by the ellipsis) never cuts between a high surrogate and an immediately
following low surrogate of the input.
-/

/-- Cutting the code-unit list `s` after `k` units does not separate a
valid surrogate pair: it never happens that the kept part ends in a high
surrogate while the dropped part starts with a low surrogate. -/
def CutOk (s : List Nat) (k : Nat) : Prop :=
  ∀ h l, (s.take k).getLast? = some h → (s.drop k).head? = some l →
    isHighSurrogate h = true → isLowSurrogate l = true → False

/-!
Data model of the log-ingestion engine (`src/types.ts`,
`src/utils/conversationReader.ts`).

JSON values already decoded from a line of a JSONL file are embedded as
the inductive `Json`; a line whose `JSON.parse` throws is `none` in a
`List (Option Json)`. JavaScript `undefined` is the `undef` constructor
(it can appear in constructed objects, never in parsed input). Numbers
are embedded as `Int`: the only numeric values the engine manipulates are
millisecond timestamps and counters.
-/

inductive Json where
  | null
  | undef
  | bool (b : Bool)
  | num (n : Int)
  | str (s : String)
  | arr (elems : List Json)
  | obj (fields : List (String × Json))

/-- JavaScript truthiness of a value (NaN is not modelled; no NaN ever
reaches a truthiness test in the embedded code). -/
def Json.truthy : Json → Bool
  | .null => false
  | .undef => false
  | .bool b => b
  | .num n => n != 0
  | .str s => !s.isEmpty
  | .arr _ => true
  | .obj _ => true

/-- Property read `j.k` on an object; `undefined` (here `none`) on
anything else. Duplicate keys are assumed absent, as JSON.parse keeps a
single binding per key. -/
def Json.getField : Json → String → Option Json
  | .obj fields, k => (fields.find? (fun p => p.1 == k)).map (fun p => p.2)
  | _, _ => none

/-- The value if it is a string (models a `typeof x === "string"` guard). -/
def Json.asStr : Json → Option String
  | .str s => some s
  | _ => none

/-- A value of JavaScript `typeof x === "object"` that passed a truthiness
check: an object or an array (null is already excluded by truthiness). -/
def Json.isObjLike : Json → Bool
  | .obj _ => true
  | .arr _ => true
  | _ => false

/-- Truthiness of a possibly-undefined property read. -/
def jsTruthy (o : Option Json) : Bool :=
  match o with
  | none => false
  | some j => j.truthy

/-- The test `j.k === v` for a string literal `v`. -/
def fieldIsStr (j : Json) (k v : String) : Bool :=
  match j.getField k with
  | some (.str s) => s == v
  | _ => false

/-- The `in` operator `"k" in j`: field presence on objects, numeric-index
presence (hence false for a name) on arrays, and a thrown TypeError
(`none`) on primitives, null and undefined. -/
def jsHasProp (field : String) : Json → Option Bool
  | .obj fields => some (fields.any (fun p => p.1 == field))
  | .arr _ => some false
  | _ => none

/-- Optional-chaining property read `j?.k`: never throws; `undefined` on
primitives, null and undefined. -/
def Json.propAccess (j : Json) (k : String) : Option Json :=
  match j with
  | .obj _ => j.getField k
  | _ => none

/-- The JavaScript string coalescing `x || dflt` for an optional string. -/
def jsOr (o : Option String) (dflt : String) : String :=
  match o with
  | some s => if s ≠ "" then s else dflt
  | none => dflt

/-- A message timestamp: either synthesized from the start time plus the
monotonic counter (the source stores `new Date(ms).toISOString()`, which
is injective and monotone in `ms`, so the millisecond value is kept), or
the raw per-record timestamp string of the rollout format. The two forms
are not comparable in the model. -/
inductive Timestamp where
  | synth (ms : Int)
  | real (s : String)
deriving DecidableEq

/-- Lexicographic strict comparison of character lists, as JavaScript
compares strings. -/
def charsLt : List Char → List Char → Bool
  | [], [] => false
  | [], _ :: _ => true
  | _ :: _, [] => false
  | a :: as, b :: bs => if a < b then true else if b < a then false else charsLt as bs

/-- Strict comparison of timestamps: millisecond order on synthesized
ones, lexicographic string order on raw ones, and no mixed comparisons. -/
def tsLt : Timestamp → Timestamp → Bool
  | .synth a, .synth b => a < b
  | .real a, .real b => charsLt a.data b.data
  | _, _ => false

/-- The `toolUseResult` summary attached to function-call-output records. -/
inductive ToolRes where
  | stdoutRes (s : String)
  | finished
deriving DecidableEq

/-- A normalized message. The source stores the role twice (`type` and
`message.role`, always equal at every construction site) and the content
under `message.content`; the embedding keeps one copy of each. -/
structure Message where
  sessionId : Json
  timestamp : Timestamp
  type : String
  content : List Json
  cwd : String
  toolUseResult : Option ToolRes := none

/-- A normalized conversation. `startTime`/`endTime` are millisecond
values; `none` models a JavaScript Invalid Date (reachable only through an
unparseable `session_meta` timestamp in the rollout format). The derived
display strings `firstMessage`/`lastMessage` are computed by
`extractMessageText` purely from `messages` and are not modelled: no
claim mentions them. -/
structure Conversation where
  sessionId : Json
  sourcePath : String
  projectPath : String
  projectName : String
  gitBranch : String
  messages : List Message
  startTime : Option Int
  endTime : Option Int

/-- Per-file context: everything the reader obtains from outside the file
contents. `dateOf` is `new Date(v).getTime()` (`none` for an Invalid
Date); `jsonParse` is `JSON.parse` on strings embedded inside records
(`none` for a thrown SyntaxError); `mtime` is the stat result (`none`
when stat fails); `nowMs` is the `new Date()` default start time;
`fallbackSessionId` is `basename(filePath).replace(".jsonl", "")`. -/
structure ReadCtx where
  fallbackSessionId : String
  sourcePath : String
  nowMs : Int
  mtime : Option Int
  dateOf : Json → Option Int
  jsonParse : String → Option Json

/-!
Legacy parser (`readConversationLegacy`, conversationReader lines
131-272) and its helpers.
-/

/-- Split a character list at every occurrence of a separator, keeping
empty segments, as JavaScript `String.prototype.split` does. -/
def splitChar (sep : Char) : List Char → List (List Char)
  | [] => [[]]
  | c :: rest =>
    match splitChar sep rest with
    | [] => [[]]
    | h :: t => if c == sep then [] :: h :: t else (c :: h) :: t

/-- The scan of `text.match(/<cwd>([^<]+)<\/cwd>/)`: the leftmost position
where `<cwd>` is followed by at least one non-`<` character and then
`</cwd>` yields the captured group. -/
def extractCwdScan : List Char → Option String
  | [] => none
  | c :: rest =>
    if ("<cwd>".data).isPrefixOf (c :: rest) then
      let after := (c :: rest).drop 5
      let cap := after.takeWhile (fun ch => ch != '<')
      if cap.isEmpty then extractCwdScan rest
      else if ("</cwd>".data).isPrefixOf (after.drop cap.length) then some (String.mk cap)
      else extractCwdScan rest
    else extractCwdScan rest

/-- Embedding of `extractCwdFromContentText` (conversationReader lines
18-21). -/
def extractCwdFromContentText (text : String) : Option String :=
  extractCwdScan text.data

/-- Scan for an occurrence of `pat` starting at any position. -/
def containsAt (pat : List Char) : List Char → Bool
  | [] => pat.isEmpty
  | c :: rest => pat.isPrefixOf (c :: rest) || containsAt pat rest

/-- JavaScript `text.includes(pat)`. -/
def containsSubstring (text pat : String) : Bool :=
  containsAt pat.data text.data

/-- The `for (const it of items)` scan for a cwd marker (lines 175-180):
falsy items are skipped by the `it &&` guard, `"text" in it` throws on a
truthy primitive (outer `none`), and the loop breaks at the first item
whose string `text` field contains a marker (inner `some`). -/
def scanItemsForCwd : List Json → Option (Option String)
  | [] => some none
  | it :: rest =>
    if it.truthy = false then scanItemsForCwd rest
    else
      match jsHasProp "text" it with
      | none => none
      | some false => scanItemsForCwd rest
      | some true =>
        match (it.getField "text").bind Json.asStr with
        | none => scanItemsForCwd rest
        | some text =>
          match extractCwdFromContentText text with
          | some found => some (some found)
          | none => scanItemsForCwd rest

/-- The `items.some(...)` environment-context test (line 182). The
callback applies `"text" in it` without a truthiness guard, so any
primitive item throws (`none`). -/
def scanItemsForEnv : List Json → Option Bool
  | [] => some false
  | it :: rest =>
    match jsHasProp "text" it with
    | none => none
    | some has =>
      let hit := has &&
        (match (it.getField "text").bind Json.asStr with
         | some text => containsSubstring text "<environment_context>"
         | none => false)
      if hit then some true else scanItemsForEnv rest

/-- Embedding of `projectNameFromRepoUrl` (lines 23-31): strip a trailing
`.git`, split on `/`, and keep the last two segments. The `!url` guard
also catches the empty string. -/
def projectNameFromRepoUrl (url : Option String) : String :=
  match url with
  | none => "-"
  | some u =>
    if u = "" then "-"
    else
      let chars := u.data
      let withoutGit := if (".git".data).isSuffixOf chars then chars.take (chars.length - 4) else chars
      let parts := splitChar '/' withoutGit
      if parts.length < 2 then "-"
      else
        match parts.reverse with
        | repo :: owner :: _ => String.mk owner ++ "/" ++ String.mk repo
        | _ => "-"

/-- Mutable state of the legacy record loop. -/
structure LegacySt where
  cwdFromIntro : Option String
  counter : Nat
  messages : List Message

/-- The synthesized timestamp `new Date(start.getTime() + counter)
.toISOString()`; `none` models the RangeError thrown by `toISOString` on
an Invalid Date (NaN start time). -/
def mkLegacyTs (startMs : Option Int) (counter : Nat) : Option Timestamp :=
  startMs.map (fun ms => .synth (ms + counter))

/-- A `tool_use` content part as constructed by both parsers for function
calls. -/
def toolUsePart (name : String) (input : Json) (callId : Json) : Json :=
  .obj [("type", .str "tool_use"), ("name", .str name), ("input", input), ("tool_use_id", callId)]

/-- Push one normalized chat message in the legacy loop (lines 188-196). -/
def pushLegacyMessage (sessionId : Json) (startMs : Option Int) (st : LegacySt)
    (role : String) (items : List Json) : Option LegacySt :=
  match mkLegacyTs startMs st.counter with
  | none => none
  | some ts => some
      { st with
        messages := st.messages ++
          [{ sessionId := sessionId, timestamp := ts, type := role,
             content := items, cwd := jsOr st.cwdFromIntro "" }],
        counter := st.counter + 1 }

/-- The content items of a message record: `data.content` when it is an
array, the empty list otherwise. -/
def contentItems (j : Json) : List Json :=
  match j.getField "content" with
  | some (.arr xs) => xs
  | _ => []

/-- The cwd-state update after the marker scan of one user message: a
found marker overrides, no marker keeps the previous value. -/
def applyCwdFound (st : LegacySt) (found : Option String) : LegacySt :=
  { st with cwdFromIntro := match found with
      | some v => some v
      | none => st.cwdFromIntro }

/-- One iteration of the legacy record loop (lines 162-238). The result
is `none` when the iteration throws (a TypeError from `in` on a primitive
content item, or a RangeError from `toISOString`), which the file-level
catch turns into a null conversation. -/
def legacyStep (sessionId : Json) (startMs : Option Int) (ctx : ReadCtx)
    (st : LegacySt) (line : Option Json) : Option LegacySt :=
  match line with
  | none => some st
  | some j =>
    if !j.truthy || !j.isObjLike then some st
    else if fieldIsStr j "record_type" "state" then some st
    else if fieldIsStr j "type" "reasoning" then some st
    else if fieldIsStr j "type" "message" &&
        (fieldIsStr j "role" "user" || fieldIsStr j "role" "assistant") then
      if fieldIsStr j "role" "user" then
        match scanItemsForCwd (contentItems j) with
        | none => none
        | some found =>
          match scanItemsForEnv (contentItems j) with
          | none => none
          | some true => some { applyCwdFound st found with
              counter := (applyCwdFound st found).counter + 1 }
          | some false => pushLegacyMessage sessionId startMs (applyCwdFound st found)
              "user" (contentItems j)
      else pushLegacyMessage sessionId startMs st "assistant" (contentItems j)
    else if fieldIsStr j "type" "function_call" then
      match mkLegacyTs startMs st.counter with
      | none => none
      | some ts =>
        let parsedArgs : Json := match (j.getField "arguments").bind Json.asStr with
          | some s => (ctx.jsonParse s).getD .undef
          | none => .undef
        let name := ((j.getField "name").bind Json.asStr).getD "tool"
        let callId : Json := (j.getField "call_id").getD .undef
        some { st with
          messages := st.messages ++
            [{ sessionId := sessionId, timestamp := ts, type := "assistant",
               content := [toolUsePart name parsedArgs callId],
               cwd := jsOr st.cwdFromIntro "" }],
          counter := st.counter + 1 }
    else if fieldIsStr j "type" "function_call_output" then
      match mkLegacyTs startMs st.counter with
      | none => none
      | some ts =>
        let stdout : Option String := match (j.getField "output").bind Json.asStr with
          | some s =>
            match ctx.jsonParse s with
            | some out => if out.truthy then (out.getField "output").bind Json.asStr else none
            | none => none
          | none => none
        let result : ToolRes := match stdout with
          | some s => if s ≠ "" then .stdoutRes s else .finished
          | none => .finished
        some { st with
          messages := st.messages ++
            [{ sessionId := sessionId, timestamp := ts, type := "assistant",
               content := [.obj [("type", .str "tool_result")]],
               cwd := jsOr st.cwdFromIntro "",
               toolUseResult := some result }],
          counter := st.counter + 1 }
    else some st

/-- The legacy record loop over all non-blank lines (the metadata line
included, exactly as in the source). -/
def legacyFold (sessionId : Json) (startMs : Option Int) (ctx : ReadCtx) :
    List (Option Json) → LegacySt → Option LegacySt
  | [], st => some st
  | line :: rest, st =>
    match legacyStep sessionId startMs ctx st line with
    | none => none
    | some st1 => legacyFold sessionId startMs ctx rest st1

/-- The project name, or `none` when `projectNameFromRepoUrl` is applied
to a truthy non-string repository URL (the `url.replace` call throws). -/
def projectNameResult (repoUrl : Option Json) : Option String :=
  match repoUrl with
  | none => some (projectNameFromRepoUrl none)
  | some j =>
    match j.asStr with
    | some s => some (projectNameFromRepoUrl (some s))
    | none => none

/-- The git branch recovered from the metadata line (lines 248-252). -/
def legacyGitBranch (meta : Option Json) : String :=
  match meta with
  | none => "-"
  | some m =>
    if m.truthy && jsTruthy (m.getField "git") then
      match (((m.getField "git").getD .undef).getField "branch").bind Json.asStr with
      | some b => if b ≠ "" then b else "-"
      | none => "-"
    else "-"

/-- The session id recovered from the legacy metadata line. -/
def legacySessionId (ctx : ReadCtx) (meta : Option Json) : Json :=
  match meta with
  | some m => if m.truthy && jsTruthy (m.getField "id")
      then (m.getField "id").getD .undef else .str ctx.fallbackSessionId
  | none => .str ctx.fallbackSessionId

/-- The start time recovered from the legacy metadata line (`none` models
an Invalid Date from an unparseable timestamp). -/
def legacyStartMs (ctx : ReadCtx) (meta : Option Json) : Option Int :=
  match meta with
  | some m => if m.truthy && jsTruthy (m.getField "timestamp")
      then ctx.dateOf ((m.getField "timestamp").getD .undef) else some ctx.nowMs
  | none => some ctx.nowMs

/-- The repository URL value recovered from the legacy metadata line. -/
def legacyRepoUrl (meta : Option Json) : Option Json :=
  match meta with
  | some m =>
    if m.truthy && jsTruthy (m.getField "git") &&
        jsTruthy (((m.getField "git").getD .undef).getField "repository_url")
    then some ((((m.getField "git").getD .undef).getField "repository_url").getD .undef)
    else none
  | none => none

/-- The tail of `readConversationLegacy` after the record loop (lines
240-267): zero kept messages yield null, and the conversation record is
assembled otherwise. -/
def buildLegacyConversation (ctx : ReadCtx) (meta : Option Json) (st : LegacySt) :
    Option Conversation :=
  if st.messages.isEmpty then none
  else
    match projectNameResult (legacyRepoUrl meta) with
    | none => none
    | some projectName => some
        { sessionId := legacySessionId ctx meta,
          sourcePath := ctx.sourcePath,
          projectPath := jsOr st.cwdFromIntro "",
          projectName := projectName,
          gitBranch := legacyGitBranch meta,
          messages := st.messages,
          startTime := legacyStartMs ctx meta,
          endTime := match ctx.mtime with
            | some m => some m
            | none => legacyStartMs ctx meta }

/-- Embedding of `readConversationLegacy` (conversationReader lines
131-272) over the parse outcomes of the non-blank lines of the file. -/
def readConversationLegacy (ctx : ReadCtx) (lines : List (Option Json)) : Option Conversation :=
  match lines with
  | [] => none
  | meta :: _ =>
    (legacyFold (legacySessionId ctx meta) (legacyStartMs ctx meta) ctx lines
      { cwdFromIntro := none, counter := 0, messages := [] }).bind
      (buildLegacyConversation ctx meta)

/-!
Rollout parser (`readConversationNew`, conversationReader lines 274-483).
-/

/-- Case map of `String.prototype.toLowerCase` restricted to ASCII, which
covers every payload discriminator the parser compares against. -/
def asciiLowerChar (c : Char) : Char :=
  if 'A' ≤ c ∧ c ≤ 'Z' then Char.ofNat (c.toNat + 32) else c

/-- ASCII lowercase of a string. -/
def asciiLowercase (s : String) : String :=
  String.mk (s.data.map asciiLowerChar)

/-- Mutable state of the rollout record loop. -/
structure RollSt where
  counter : Nat
  messages : List Message

/-- The per-line timestamp (line 319): the raw string when the record has
a string `timestamp`, otherwise synthesized; `none` models the RangeError
of `toISOString` on an Invalid Date start time. -/
def mkRolloutTs (j : Json) (startMs : Option Int) (counter : Nat) : Option Timestamp :=
  match (j.getField "timestamp").bind Json.asStr with
  | some s => some (.real s)
  | none => startMs.map (fun ms => .synth (ms + counter))

/-- Append one message and advance the counter in the rollout loop. -/
def pushRollout (sessionId : String) (cwd : String) (st : RollSt) (ts : Timestamp)
    (role : String) (content : List Json) (tur : Option ToolRes) : RollSt :=
  { counter := st.counter + 1,
    messages := st.messages ++
      [{ sessionId := .str sessionId, timestamp := ts, type := role,
         content := content, cwd := cwd, toolUseResult := tur }] }

/-- The environment-context test of the rollout parser (line 329); it uses
optional chaining, so it never throws. -/
def rolloutEnvTest (items : List Json) : Bool :=
  items.any (fun it =>
    match (it.propAccess "text").bind Json.asStr with
    | some text => containsSubstring text "<environment_context>"
    | none => false)

/-- A text content part kept by the rollout message branch. -/
def mkTextPart (ty : String) (text : Option String) : Json :=
  .obj [("type", .str ty), ("text", match text with | some s => .str s | none => .undef)]

/-- The content-part mapping of the rollout message branch (lines
332-339): only `input_text`, `output_text` and `text` parts survive. -/
def rolloutPart (p : Json) : Option Json :=
  let t := match (p.propAccess "type").bind Json.asStr with
    | some ty => asciiLowercase ty
    | none => ""
  let text := (p.propAccess "text").bind Json.asStr
  if t = "input_text" then some (mkTextPart "input_text" text)
  else if t = "output_text" then some (mkTextPart "output_text" text)
  else if t = "text" then some (mkTextPart "text" text)
  else none

/-- One iteration of the rollout record loop (lines 314-458). `none`
models a thrown RangeError (Invalid Date synthesis), turned into a null
conversation by the file-level catch. -/
def rolloutStep (sessionId : String) (startMs : Option Int) (cwd : String) (ctx : ReadCtx)
    (st : RollSt) (line : Option Json) : Option RollSt :=
  match line with
  | none => some st
  | some j =>
    if !j.truthy || !j.isObjLike then some st
    else
      match mkRolloutTs j startMs st.counter with
      | none => none
      | some ts =>
        if fieldIsStr j "type" "response_item" && jsTruthy (j.getField "payload") &&
            ((j.getField "payload").getD .undef).isObjLike then
          let payload := (j.getField "payload").getD .undef
          let pType := match (payload.getField "type").bind Json.asStr with
            | some t => asciiLowercase t
            | none => ""
          if pType = "message" &&
              (fieldIsStr payload "role" "user" || fieldIsStr payload "role" "assistant") then
            let role := if fieldIsStr payload "role" "user" then "user" else "assistant"
            let contentArr := match payload.getField "content" with
              | some (.arr xs) => xs
              | _ => []
            if rolloutEnvTest contentArr then some { st with counter := st.counter + 1 }
            else some (pushRollout sessionId cwd st ts role (contentArr.filterMap rolloutPart) none)
          else if pType = "reasoning" then some { st with counter := st.counter + 1 }
          else if pType = "function_call" then
            let input : Json := match (payload.getField "arguments").bind Json.asStr with
              | some s => (ctx.jsonParse s).getD .undef
              | none => .undef
            let name := ((payload.getField "name").bind Json.asStr).getD "tool"
            let callId : Json := match (payload.getField "call_id").bind Json.asStr with
              | some s => .str s
              | none => .undef
            some (pushRollout sessionId cwd st ts "assistant" [toolUsePart name input callId] none)
          else if pType = "function_call_output" then
            some (pushRollout sessionId cwd st ts "assistant"
              [.obj [("type", .str "tool_result")]] (some .finished))
          else if pType = "custom_tool_call" then
            let name := match (payload.getField "name").bind Json.asStr with
              | some n => "custom:" ++ n
              | none => "custom_tool"
            let input : Json := match (payload.getField "input").bind Json.asStr with
              | some s =>
                match ctx.jsonParse s with
                | some v => v
                | none => .str s
              | none => .undef
            let callId : Json := match (payload.getField "call_id").bind Json.asStr with
              | some s => .str s
              | none => .undef
            some (pushRollout sessionId cwd st ts "assistant" [toolUsePart name input callId] none)
          else if pType = "custom_tool_call_output" then
            some (pushRollout sessionId cwd st ts "assistant"
              [.obj [("type", .str "tool_result")]] (some .finished))
          else if pType = "local_shell_call" then
            let action : Json := if jsTruthy (payload.getField "action")
              then (payload.getField "action").getD .undef else .obj []
            let command : Json := match action.getField "command" with
              | some (.arr xs) => .arr xs
              | _ => .undef
            some (pushRollout sessionId cwd st ts "assistant"
              [.obj [("type", .str "tool_use"), ("name", .str "shell"),
                     ("input", .obj [("command", command)])]] none)
          else if pType = "web_search_call" then
            let action : Json := if jsTruthy (payload.getField "action")
              then (payload.getField "action").getD .undef else .obj []
            let query : Json := match (action.getField "query").bind Json.asStr with
              | some q => .str q
              | none => .undef
            some (pushRollout sessionId cwd st ts "assistant"
              [.obj [("type", .str "tool_use"), ("name", .str "web_search"),
                     ("input", .obj [("query", query)])]] none)
          else some { st with counter := st.counter + 1 }
        else if fieldIsStr j "type" "event_msg" then some { st with counter := st.counter + 1 }
        else some st

/-- The rollout record loop over the lines after the metadata line. -/
def rolloutFold (sessionId : String) (startMs : Option Int) (cwd : String) (ctx : ReadCtx) :
    List (Option Json) → RollSt → Option RollSt
  | [], st => some st
  | line :: rest, st =>
    match rolloutStep sessionId startMs cwd ctx st line with
    | none => none
    | some st1 => rolloutFold sessionId startMs cwd ctx rest st1

/-- The session-meta payload fields the rollout parser extracts from the
first line (lines 291-301). -/
structure RolloutMeta where
  sessionId : String
  startMs : Option Int
  cwd : String
  repoUrl : Option String
  gitBranch : Option String

/-- Field extraction from a session-meta payload object. -/
def rolloutMetaOf (ctx : ReadCtx) (p : Json) : RolloutMeta :=
  { sessionId := ((p.getField "id").bind Json.asStr).getD ""
    startMs := match (p.getField "timestamp").bind Json.asStr with
      | some ts => ctx.dateOf (.str ts)
      | none => some ctx.nowMs
    cwd := ((p.getField "cwd").bind Json.asStr).getD ""
    repoUrl := if jsTruthy (p.getField "git")
      then (((p.getField "git").getD .undef).getField "repository_url").bind Json.asStr
      else none
    gitBranch := if jsTruthy (p.getField "git")
      then (((p.getField "git").getD .undef).getField "branch").bind Json.asStr
      else none }

/-- The tail of `readConversationNew` after the record loop (lines
460-478). -/
def buildRolloutConversation (ctx : ReadCtx) (meta : RolloutMeta) (st : RollSt) :
    Option Conversation :=
  if st.messages.isEmpty then none
  else some
    { sessionId := .str meta.sessionId,
      sourcePath := ctx.sourcePath,
      projectPath := meta.cwd,
      projectName := projectNameFromRepoUrl meta.repoUrl,
      gitBranch := jsOr meta.gitBranch "-",
      messages := st.messages,
      startTime := meta.startMs,
      endTime := match ctx.mtime with
        | some m => some m
        | none => meta.startMs }

/-- Embedding of `readConversationNew` (conversationReader lines 274-483)
over the parse outcomes of the non-blank lines of the file. -/
def readConversationNew (ctx : ReadCtx) (lines : List (Option Json)) : Option Conversation :=
  match lines with
  | [] => none
  | first :: rest =>
    match first with
    | none => none
    | some firstJson =>
      if firstJson.truthy && fieldIsStr firstJson "type" "session_meta" &&
          jsTruthy (firstJson.getField "payload") &&
          ((firstJson.getField "payload").getD .undef).isObjLike then
        let meta := rolloutMetaOf ctx ((firstJson.getField "payload").getD .undef)
        (rolloutFold meta.sessionId meta.startMs meta.cwd ctx rest
          { counter := 0, messages := [] }).bind (buildRolloutConversation ctx meta)
      else none

/-- The fast first-line check of `isNewFormatFile` (lines 485-495): the
first non-blank line parses to an object whose `type` is `session_meta`.
Read failures, a blank file and parse errors all yield false; `obj &&
obj.type === 'session_meta'` is the modelled test. -/
def isNewFormatFile (firstLine : Option (Option Json)) : Bool :=
  match firstLine with
  | none => false
  | some none => false
  | some (some j) => j.truthy && fieldIsStr j "type" "session_meta"

/-!
Version probing and format detection (`src/utils/codexVersion.ts`, the
copy imported by the conversation reader). `getCodexVersion` shells out
to the external CLI and is kept abstract: the detection functions take
its `string | null` result as input. The local-log probe reads the
session directory tree, embedded here as `LocalFS`.
-/

/-- The value of `parseInt(s, 10)` on the component strings produced by
the semver split: optional leading whitespace and plus sign, then decimal
digits; `none` models NaN. A minus sign cannot reach this point because
the input was already split at the first dash. -/
def parseIntLeading (s : List Char) : Option Nat :=
  let t := s.dropWhile (fun c => c == ' ' || c == '\t' || c == '\n' || c == '\r')
  let t2 := match t with
    | '+' :: u => u
    | _ => t
  let ds := t2.takeWhile Char.isDigit
  if ds.isEmpty then none
  else some (ds.foldl (fun a c => a * 10 + (c.toNat - 48)) 0)

/-- The numeric components of `a.split('-')[0].split('.')`. -/
def semverParts (v : String) : List (Option Nat) :=
  (splitChar '.' ((splitChar '-' v.data).headD [])).map parseIntLeading

/-- The component access `p[i] || 0`: a missing or NaN component is 0. -/
def semverComponent (p : List (Option Nat)) (i : Nat) : Nat :=
  match p.getD i none with
  | some n => n
  | none => 0

/-- Embedding of `compareSemver` (codexVersion lines 23-34): pre-release
and build metadata ignored, the first three components compared
numerically with missing components as 0. -/
def compareSemver (a b : String) : Int :=
  let pa := semverParts a
  let pb := semverParts b
  if semverComponent pa 0 > semverComponent pb 0 then 1
  else if semverComponent pa 0 < semverComponent pb 0 then -1
  else if semverComponent pa 1 > semverComponent pb 1 then 1
  else if semverComponent pa 1 < semverComponent pb 1 then -1
  else if semverComponent pa 2 > semverComponent pb 2 then 1
  else if semverComponent pa 2 < semverComponent pb 2 then -1
  else 0

/-- One session log file as the probe sees it: its name and the parse
outcome of its first non-blank line (`none` when the file has no
non-blank line or cannot be read, `some none` when `JSON.parse` throws). -/
structure LogFile where
  name : String
  firstLine : Option (Option Json)

/-- A day directory of the session tree. -/
structure DayDir where
  name : String
  files : List LogFile

/-- A month directory of the session tree. -/
structure MonthDir where
  name : String
  days : List DayDir

/-- A year directory of the session tree. -/
structure YearDir where
  name : String
  months : List MonthDir

/-- The on-disk state inspected by `guessFromLocalLogs`: whether the
consolidated `history.jsonl` exists, and the `sessions` tree. -/
structure LocalFS where
  historyExists : Bool
  years : List YearDir

/-- Insert keeping a list sorted by key in descending string order; used
to model `xs.sort().reverse()` (ascending lexicographic sort by UTF-16
code units, then reversal). -/
def insertDescBy {α : Type} (key : α → String) (x : α) : List α → List α
  | [] => [x]
  | y :: ys => if key x > key y then x :: y :: ys else y :: insertDescBy key x ys

/-- Sort descending by a string key. -/
def sortDescBy {α : Type} (key : α → String) : List α → List α
  | [] => []
  | x :: xs => insertDescBy key x (sortDescBy key xs)

/-- The day scan of `guessFromLocalLogs` (lines 50-61): in each day, keep
`.jsonl` files, sample the lexicographically last one, and when its first
line is readable and parses, return `obj?.type === 'session_meta'`; a
missing first line or a parse error moves on to the next day. -/
def guessScanDays : List DayDir → Option Bool
  | [] => none
  | d :: rest =>
    match sortDescBy LogFile.name (d.files.filter (fun f => (".jsonl".data).isSuffixOf f.name.data)) with
    | [] => guessScanDays rest
    | f :: _ =>
      match f.firstLine with
      | none => guessScanDays rest
      | some none => guessScanDays rest
      | some (some j) =>
        some (match j.propAccess "type" with
          | some (.str t) => t == "session_meta"
          | _ => false)

/-- The month scan: days in descending order. -/
def guessScanMonths : List MonthDir → Option Bool
  | [] => none
  | m :: rest =>
    match guessScanDays (sortDescBy DayDir.name m.days) with
    | some b => some b
    | none => guessScanMonths rest

/-- The year scan: months in descending order. -/
def guessScanYears : List YearDir → Option Bool
  | [] => none
  | y :: rest =>
    match guessScanMonths (sortDescBy MonthDir.name y.months) with
    | some b => some b
    | none => guessScanYears rest

/-- Embedding of `guessFromLocalLogs` (codexVersion lines 36-66): the
consolidated history file wins, then the sampled first line decides, and
the inconclusive default is legacy (false). -/
def guessFromLocalLogs (fs : LocalFS) : Bool :=
  if fs.historyExists then true
  else
    match guessScanYears (sortDescBy YearDir.name fs.years) with
    | some b => b
    | none => false

/-- Embedding of `isCodexNewRolloutFormat` (codexVersion lines 17-21):
`!version` (null or the empty string) defers to the local-log probe,
otherwise the semver comparison against 0.32.0 decides. -/
def isCodexNewRolloutFormat (version : Option String) (fs : LocalFS) : Bool :=
  match version with
  | none => guessFromLocalLogs fs
  | some v => if v = "" then guessFromLocalLogs fs else decide (compareSemver v "0.32.0" ≥ 0)

/-!
Repository listing (`getAllConversations` and `getPaginatedConversations`,
conversationReader lines 33-62). Directory walking and file parsing are
I/O; both entry points run the identical collector for the detected
format over the same directory tree, so the embedding takes the collected
conversation list as input and models the shared filter → sort → slice
pipeline.
-/

/-- The filter `options.currentDirFilter ? all.filter(c => c.projectPath
=== filter) : all`; an empty-string filter is falsy and disables
filtering. -/
def applyDirFilter (filter : Option String) (l : List Conversation) : List Conversation :=
  match filter with
  | some f => if f ≠ "" then l.filter (fun c => c.projectPath == f) else l
  | none => l

/-- The sort key `c.endTime.getTime()`; an Invalid Date compares as 0 in
the model (in the source a NaN comparator result leaves the engine order
unspecified; no claim depends on it). -/
def endKey (c : Conversation) : Int :=
  c.endTime.getD 0

/-- Stable insertion for descending sort by `endKey`. -/
def insertByEndDesc (x : Conversation) : List Conversation → List Conversation
  | [] => [x]
  | y :: ys => if endKey x > endKey y then x :: y :: ys else y :: insertByEndDesc x ys

/-- The stable sort `list.sort((a, b) => b.endTime.getTime() -
a.endTime.getTime())`. -/
def sortByEndTimeDesc : List Conversation → List Conversation
  | [] => []
  | x :: xs => insertByEndDesc x (sortByEndTimeDesc xs)

/-- Embedding of `getAllConversations` (lines 49-62): filter the collected
list by exact project path, then sort descending by end time. -/
def getAllConversations (collected : List Conversation) (filter : Option String) :
    List Conversation :=
  sortByEndTimeDesc (applyDirFilter filter collected)

/-- Embedding of `getPaginatedConversations` (lines 33-47): the same
filter and sort, then the clamped slice `[offset, offset + limit)` and the
total count of the filtered set. -/
def getPaginatedConversations (collected : List Conversation) (limit offset : Nat)
    (filter : Option String) : List Conversation × Nat :=
  let filtered := sortByEndTimeDesc (applyDirFilter filter collected)
  let total := filtered.length
  let start := min offset total
  let stop := min (start + limit) total
  ((filtered.drop start).take (stop - start), total)

/-!
Specification-side helper predicates used by the claim statements.
-/

/-- The cwd marker a legacy record contributes, mirroring the gate chain
of the loop: a parsed, truthy, object-like record that is not a state or
reasoning record, of type `message` with role `user`, whose first item
with a string `text` field containing a marker yields that marker. -/
def userMsgMarker (line : Option Json) : Option String :=
  match line with
  | none => none
  | some j =>
    if !j.truthy || !j.isObjLike then none
    else if fieldIsStr j "record_type" "state" then none
    else if fieldIsStr j "type" "reasoning" then none
    else if fieldIsStr j "type" "message" &&
        (fieldIsStr j "role" "user" || fieldIsStr j "role" "assistant") then
      if fieldIsStr j "role" "user" then
        (scanItemsForCwd (contentItems j)).bind id
      else none
    else none

/-- The last cwd marker contributed over a record sequence (later user
messages override earlier ones). -/
def lastCwdMarker (lines : List (Option Json)) : Option String :=
  lines.foldl (fun acc line =>
    match userMsgMarker line with
    | some v => some v
    | none => acc) none

/-- The first cwd marker contributed over a record sequence. -/
def firstCwdMarker (lines : List (Option Json)) : Option String :=
  (lines.filterMap userMsgMarker).head?

/-- A record that carries its own string timestamp, which the rollout
parser uses in place of synthesis. -/
def hasStrTimestamp (line : Option Json) : Bool :=
  match line with
  | none => false
  | some j => ((j.getField "timestamp").bind Json.asStr).isSome

/-- A message sequence whose timestamps strictly increase. -/
def StrictlyIncreasing (msgs : List Message) : Prop :=
  List.Chain' (fun a b => tsLt a.timestamp b.timestamp = true) msgs

/-- The session-meta gate on the first line as the claim states it: the
line parses and its `type` is `session_meta`. -/
def firstIsSessionMeta (line : Option Json) : Bool :=
  match line with
  | none => false
  | some j => j.truthy && fieldIsStr j "type" "session_meta"

/-!
Concrete inputs used by witnesses and counterexamples.
-/

/-- A parse context with no external observations. -/
def plainCtx : ReadCtx :=
  { fallbackSessionId := "file", sourcePath := "/tmp/f.jsonl", nowMs := 1700000000000,
    mtime := none, dateOf := fun _ => none, jsonParse := fun _ => none }

/-- A legacy user chat message whose single text item is `text`. -/
def mkUserMsgLine (text : String) : Option Json :=
  some (.obj [("type", .str "message"), ("role", .str "user"),
    ("content", .arr [.obj [("type", .str "input_text"), ("text", .str text)]])])

/-- A legacy metadata line carrying only an id. -/
def exMetaLine : Option Json := some (.obj [("id", .str "sess-1")])

/-- A legacy file with two user messages carrying different cwd markers. -/
def exTwoMarkerLines : List (Option Json) :=
  [exMetaLine, mkUserMsgLine "<cwd>/a</cwd>", mkUserMsgLine "<cwd>/b</cwd>"]

/-- A legacy file whose only message is environment-context boilerplate. -/
def exEnvOnlyLines : List (Option Json) :=
  [exMetaLine, mkUserMsgLine "<environment_context>stuff"]

/-- A well-formed legacy file with one ordinary user message. -/
def exLegacyOkLines : List (Option Json) :=
  [exMetaLine, mkUserMsgLine "hello", mkUserMsgLine "again"]

/-- A rollout session-meta first line. -/
def exSessionMetaLine : Option Json :=
  some (.obj [("type", .str "session_meta"),
    ("payload", .obj [("id", .str "sess-2"), ("cwd", .str "/proj")])])

/-- A rollout chat record with an explicit raw timestamp. -/
def mkRolloutMsgLine (ts : Option String) (text : String) : Option Json :=
  some (.obj (
    (match ts with
     | some t => [("timestamp", Json.str t)]
     | none => []) ++
    [("type", Json.str "response_item"),
     ("payload", Json.obj [("type", .str "message"), ("role", .str "user"),
       ("content", .arr [.obj [("type", .str "input_text"), ("text", .str text)]])])]))

/-- A rollout file in which two records carry the same raw timestamp. -/
def exEqualTsLines : List (Option Json) :=
  [exSessionMetaLine,
   mkRolloutMsgLine (some "2025-01-01T00:00:00.000Z") "hi",
   mkRolloutMsgLine (some "2025-01-01T00:00:00.000Z") "there"]

/-- A rollout file in which no record carries its own timestamp. -/
def exSynthRolloutLines : List (Option Json) :=
  [exSessionMetaLine, mkRolloutMsgLine none "hi", mkRolloutMsgLine none "there"]

/-- A session tree with a single file whose first line is a session-meta
record. -/
def exNewFormatFS : LocalFS :=
  { historyExists := false,
    years := [YearDir.mk "2025" [MonthDir.mk "01" [DayDir.mk "02"
      [LogFile.mk "a.jsonl" (some (some (.obj [("type", .str "session_meta")])))]]]] }

/-- A session tree with no files at all. -/
def exEmptyFS : LocalFS := { historyExists := false, years := [] }

/-- A placeholder conversation used as the default of `Option.getD` in
witness statements. -/
def emptyConv : Conversation :=
  { sessionId := .null, sourcePath := "", projectPath := "", projectName := "",
    gitBranch := "", messages := [], startTime := none, endTime := none }

/-- Loop invariant of the legacy parser: every kept message carries a
synthesized timestamp strictly below the next one to be issued, and the
kept sequence is strictly increasing. -/
def LegacyMsgInv (sMs : Option Int) (st : LegacySt) : Prop :=
  (∀ m ∈ st.messages, ∃ ms v, sMs = some v ∧
    m.timestamp = Timestamp.synth ms ∧ ms < v + st.counter) ∧
  StrictlyIncreasing st.messages

/-- The same loop invariant for the rollout parser when every record
timestamp is synthesized. -/
def RolloutMsgInv (sMs : Option Int) (st : RollSt) : Prop :=
  (∀ m ∈ st.messages, ∃ ms v, sMs = some v ∧
    m.timestamp = Timestamp.synth ms ∧ ms < v + st.counter) ∧
  StrictlyIncreasing st.messages

/-!
Theorems. Width module first.
-/

/-- Surrogate ranges are disjoint. -/
theorem low_surrogate_not_high {x : Nat} (h : isLowSurrogate x = true) :
    isHighSurrogate x = false := by
  simp [isLowSurrogate] at h
  simp [isHighSurrogate]
  omega

/-- A high surrogate is beyond the ASCII range. -/
theorem high_surrogate_not_ascii {x : Nat} (h : isHighSurrogate x = true) :
    ¬ x ≤ 0x7F := by
  simp [isHighSurrogate] at h
  omega

/-- When the whole remaining input fits in the reserved budget, the
truncation loop copies it verbatim. -/
theorem truncateLoop_fits : ∀ (s : List Nat) (maxWidth : Int) (width : Nat) (result : List Nat),
    (width : Int) + getStringWidth s ≤ maxWidth - 3 →
    truncateLoop maxWidth width result s = result ++ s
  | [], _, _, _, _ => by simp [truncateLoop]
  | [c], mW, w, r, h => by
    simp only [getStringWidth] at h
    simp only [truncateLoop]
    rw [if_neg (by omega)]
  | c :: c2 :: rest, mW, w, r, h => by
    by_cases hp : (isHighSurrogate c && isLowSurrogate c2) = true
    · have hs : getStringWidth (c :: c2 :: rest) = 2 + getStringWidth rest := by
        simp [getStringWidth, hp]
      rw [hs] at h
      simp only [truncateLoop, hp, if_true]
      rw [if_neg (by push_cast at h ⊢; omega)]
      rw [truncateLoop_fits rest mW (w + 2) (r ++ [c, c2]) (by push_cast at h ⊢; omega)]
      simp
    · have hs : getStringWidth (c :: c2 :: rest) = getCharWidth [c] + getStringWidth (c2 :: rest) := by
        simp [getStringWidth, hp]
      rw [hs] at h
      simp only [truncateLoop, hp, if_false, Bool.false_eq_true]
      rw [if_neg (by push_cast at h ⊢; omega)]
      rw [truncateLoop_fits (c2 :: rest) mW (w + getCharWidth [c]) (r ++ [c])
        (by push_cast at h ⊢; omega)]
      simp

/-- Relative no-split property of a consumed prefix: the kept units never
end in a high surrogate whose partner immediately follows in the input. -/
def BoundaryOk (s t : List Nat) : Prop :=
  ∀ h l, t.getLast? = some h → (s.drop t.length).head? = some l →
    isHighSurrogate h = true → isLowSurrogate l = true → False

/-- The truncation loop consumes whole units: its output is the
accumulator followed by a prefix of the input that never cuts a surrogate
pair, optionally followed by the ellipsis. -/
theorem truncateLoop_shape : ∀ (s : List Nat) (maxWidth : Int) (width : Nat) (acc : List Nat),
    ∃ t, t = s.take t.length ∧ BoundaryOk s t ∧
      (truncateLoop maxWidth width acc s = acc ++ t ∨
       truncateLoop maxWidth width acc s = acc ++ t ++ ellipsis)
  | [], mW, w, acc => by
    refine ⟨[], by simp, ?_, Or.inl (by simp [truncateLoop])⟩
    intro h l hlast
    simp at hlast
  | [c], mW, w, acc => by
    by_cases ht : (w : Int) + getCharWidth [c] > mW - 3
    · refine ⟨[], by simp, ?_, Or.inr (by simp [truncateLoop, ht])⟩
      intro h l hlast
      simp at hlast
    · refine ⟨[c], by simp, ?_, Or.inl (by simp [truncateLoop, ht])⟩
      intro h l hlast hnext
      simp at hnext
  | c :: c2 :: rest, mW, w, acc => by
    by_cases hp : (isHighSurrogate c && isLowSurrogate c2) = true
    · by_cases ht : (w : Int) + 2 > mW - 3
      · refine ⟨[], by simp, ?_, Or.inr (by simp [truncateLoop, hp, ht])⟩
        intro h l hlast
        simp at hlast
      · obtain ⟨t, htake, hbnd, hres⟩ := truncateLoop_shape rest mW (w + 2) (acc ++ [c, c2])
        refine ⟨c :: c2 :: t, ?_, ?_, ?_⟩
        · simpa [List.take_succ_cons] using htake
        · intro h l hlast hnext hh hl
          match t, hbnd with
          | [], _ =>
            simp at hlast hnext
            subst hlast
            simp at hp
            rw [low_surrogate_not_high hp.2] at hh
            exact Bool.false_ne_true hh
          | a :: t', hbnd =>
            rw [List.getLast?_cons_cons, List.getLast?_cons_cons] at hlast
            exact hbnd h l hlast (by simpa using hnext) hh hl
        · have hred : truncateLoop mW w acc (c :: c2 :: rest) =
              truncateLoop mW (w + 2) (acc ++ [c, c2]) rest := by
            simp [truncateLoop, hp, ht]
          rcases hres with hres | hres
          · exact Or.inl (by rw [hred, hres]; simp)
          · exact Or.inr (by rw [hred, hres]; simp)
    · by_cases ht : (w : Int) + getCharWidth [c] > mW - 3
      · refine ⟨[], by simp, ?_, Or.inr (by simp [truncateLoop, hp, ht])⟩
        intro h l hlast
        simp at hlast
      · obtain ⟨t, htake, hbnd, hres⟩ :=
          truncateLoop_shape (c2 :: rest) mW (w + getCharWidth [c]) (acc ++ [c])
        refine ⟨c :: t, ?_, ?_, ?_⟩
        · simpa [List.take_succ_cons] using htake
        · intro h l hlast hnext hh hl
          match t, hbnd, htake with
          | [], _, _ =>
            simp at hlast hnext
            subst hlast
            subst hnext
            rw [hh, hl] at hp
            simp at hp
          | a :: t', hbnd, htake =>
            rw [List.getLast?_cons_cons] at hlast
            exact hbnd h l hlast (by simpa using hnext) hh hl
        · have hred : truncateLoop mW w acc (c :: c2 :: rest) =
              truncateLoop mW (w + getCharWidth [c]) (acc ++ [c]) (c2 :: rest) := by
            simp [truncateLoop, hp, ht]
          rcases hres with hres | hres
          · exact Or.inl (by rw [hred, hres]; simp)
          · exact Or.inr (by rw [hred, hres]; simp)

/-- On a non-empty accumulator test, both overflow results of the strict
loop collapse to appending the ellipsis. -/
theorem strict_overflow_collapse (acc : List Nat) :
    (if 0 < acc.length then acc ++ ellipsis else ellipsis) = acc ++ ellipsis := by
  cases acc <;> simp

/-- The strict loop is the plain truncation loop run with the budget
shifted by the ellipsis width. -/
theorem strictLoop_eq_truncateLoop : ∀ (s : List Nat) (eff : Int) (w : Nat) (acc : List Nat),
    strictLoop eff w acc s = truncateLoop (eff + 3) w acc s
  | [], _, _, _ => rfl
  | [c], eff, w, acc => by
    simp only [strictLoop, truncateLoop, Int.add_sub_cancel]
    by_cases ht : (w : Int) + getCharWidth [c] > eff
    · simp [ht, strict_overflow_collapse]
    · simp [ht]
  | c :: c2 :: rest, eff, w, acc => by
    simp only [strictLoop, truncateLoop, Int.add_sub_cancel]
    by_cases hp : (isHighSurrogate c && isLowSurrogate c2) = true
    · by_cases ht : (w : Int) + 2 > eff
      · simp [hp, ht, strict_overflow_collapse]
      · simp only [hp, if_true, ht, if_false]
        exact strictLoop_eq_truncateLoop rest eff (w + 2) (acc ++ [c, c2])
    · by_cases ht : (w : Int) + getCharWidth [c] > eff
      · simp [hp, ht, strict_overflow_collapse]
      · simp only [hp, Bool.false_eq_true, if_false, ht]
        exact strictLoop_eq_truncateLoop (c2 :: rest) eff (w + getCharWidth [c]) (acc ++ [c])

/-- The shape lemma lifted to `truncateStringByWidth`. -/
theorem truncate_cut_ok (s : List Nat) (maxWidth : Int) :
    ∃ k, k ≤ s.length ∧
      (truncateStringByWidth s maxWidth = s.take k ∨
       truncateStringByWidth s maxWidth = s.take k ++ ellipsis) ∧ CutOk s k := by
  rcases eq_or_ne s [] with rfl | hne
  · exact ⟨0, by simp, Or.inl (by simp [truncateStringByWidth]), by intro h l hl; simp at hl⟩
  · obtain ⟨t, htake, hbnd, hres⟩ := truncateLoop_shape s maxWidth 0 []
    refine ⟨t.length, ?_, ?_, ?_⟩
    · have := congrArg List.length htake
      simp at this
      omega
    · rw [truncateStringByWidth, if_neg hne]
      simpa [← htake] using hres
    · intro h l hlast hnext hh hl
      rw [← htake] at hlast
      exact hbnd h l hlast hnext hh hl

/-- The shape lemma lifted to `strictTruncateByWidth`. -/
theorem strictTruncate_cut_ok (s : List Nat) (maxWidth : Int) :
    ∃ k, k ≤ s.length ∧
      (strictTruncateByWidth s maxWidth = s.take k ∨
       strictTruncateByWidth s maxWidth = s.take k ++ ellipsis) ∧ CutOk s k := by
  by_cases hg : s = [] ∨ maxWidth ≤ 0
  · refine ⟨0, by simp, Or.inl ?_, by intro h l hl; simp at hl⟩
    rw [strictTruncateByWidth, if_pos hg]
    simp
  · obtain ⟨t, htake, hbnd, hres⟩ := truncateLoop_shape s (maxWidth - 3 + 3) 0 []
    refine ⟨t.length, ?_, ?_, ?_⟩
    · have := congrArg List.length htake
      simp at this
      omega
    · rw [strictTruncateByWidth, if_neg hg, strictLoop_eq_truncateLoop]
      simpa [← htake] using hres
    · intro h l hlast hnext hh hl
      rw [← htake] at hlast
      exact hbnd h l hlast hnext hh hl

/-- C2: none of getCharWidth, getStringWidth, truncateStringByWidth or
strictTruncateByWidth splits a valid UTF-16 surrogate pair: a high unit
immediately followed by a low unit is consumed as one unit of width
exactly 2, and either truncation output is a whole-unit prefix of the
input (optionally plus the ellipsis) whose cut never separates a complete
pair of the input, so it never ends in the high half of such a pair. -/
theorem surrogate_pairs_are_atomic :
    (∀ h l rest, isHighSurrogate h = true → isLowSurrogate l = true →
      getCharWidth (h :: l :: rest) = 2 ∧
      getStringWidth (h :: l :: rest) = 2 + getStringWidth rest) ∧
    (∀ (s : List Nat) (maxWidth : Int), ∃ k, k ≤ s.length ∧
      (truncateStringByWidth s maxWidth = s.take k ∨
       truncateStringByWidth s maxWidth = s.take k ++ ellipsis) ∧ CutOk s k) ∧
    (∀ (s : List Nat) (maxWidth : Int), ∃ k, k ≤ s.length ∧
      (strictTruncateByWidth s maxWidth = s.take k ∨
       strictTruncateByWidth s maxWidth = s.take k ++ ellipsis) ∧ CutOk s k) := by
  refine ⟨?_, truncate_cut_ok, strictTruncate_cut_ok⟩
  intro h l rest hh hl
  constructor
  · simp only [getCharWidth]
    rw [if_neg (high_surrogate_not_ascii hh), if_pos hh]
  · simp [getStringWidth, hh, hl]

/-- Witness for C2 at the surrogate-pair emoji U+1F600. -/
theorem surrogate_pairs_are_atomic_witness :
    getCharWidth [0xD83D, 0xDE00] = 2 ∧
    getStringWidth [0xD83D, 0xDE00] = 2 + getStringWidth [] :=
  surrogate_pairs_are_atomic.1 0xD83D 0xDE00 [] (by decide) (by decide)

/-- C6 counterexample: the string "hello" has display width 5, which is
at most maxWidth = 5, yet truncateStringByWidth modifies it, because the
loop always reserves 3 columns for the ellipsis. -/
theorem truncate_modifies_exactly_fitting_input :
    getStringWidth [104, 101, 108, 108, 111] = 5 ∧
    truncateStringByWidth [104, 101, 108, 108, 111] 5 = [104, 101] ++ ellipsis ∧
    [104, 101] ++ ellipsis ≠ [104, 101, 108, 108, 111] := by decide

/-- C6 (amended): truncateStringByWidth returns its input unmodified, with
no ellipsis appended, whenever the display width of the input fits inside
maxWidth minus the reserved ellipsis width 3 (the test suite pins exactly
this behaviour, e.g. width 5 within 8 - 3). -/
theorem truncate_identity_when_width_fits_reserve :
    ∀ (s : List Nat) (maxWidth : Int),
      (getStringWidth s : Int) ≤ maxWidth - 3 → truncateStringByWidth s maxWidth = s := by
  intro s mW h
  rcases eq_or_ne s [] with rfl | hne
  · simp [truncateStringByWidth]
  · rw [truncateStringByWidth, if_neg hne]
    have := truncateLoop_fits s mW 0 [] (by simpa using h)
    simpa using this

/-- Witness for the amended C6: "hello" at maxWidth 8. -/
theorem truncate_identity_when_width_fits_reserve_witness :
    (getStringWidth [104, 101, 108, 108, 111] : Int) ≤ 8 - 3 ∧
    truncateStringByWidth [104, 101, 108, 108, 111] 8 = [104, 101, 108, 108, 111] :=
  ⟨by decide, truncate_identity_when_width_fits_reserve [104, 101, 108, 108, 111] 8 (by decide)⟩

/-- C1: at the failing input ("a", maxWidth 1) the strict truncation
returns the full three-dot ellipsis, whose display width 3 exceeds
maxWidth, contradicting both the claim and the doc comment of the
function; the same happens at maxWidth 2. -/
theorem strictTruncate_overflows_small_budgets :
    strictTruncateByWidth [97] 1 = ellipsis ∧
    strictTruncateByWidth [97] 2 = ellipsis ∧
    getStringWidth ellipsis = 3 := by decide

/-- C10: strictTruncateByWidth is the empty string for every input at any
maxWidth at most 0, and for the empty input at every maxWidth. -/
theorem strictTruncate_empty_cases :
    (∀ (s : List Nat) (maxWidth : Int), maxWidth ≤ 0 → strictTruncateByWidth s maxWidth = []) ∧
    (∀ maxWidth : Int, strictTruncateByWidth [] maxWidth = []) := by
  constructor
  · intro s m h
    rw [strictTruncateByWidth, if_pos (Or.inr h)]
  · intro m
    rw [strictTruncateByWidth, if_pos (Or.inl rfl)]

/-- Witness for C10 at s = "a", maxWidth = -2. -/
theorem strictTruncate_empty_cases_witness :
    (-2 : Int) ≤ 0 ∧ strictTruncateByWidth [97] (-2) = [] :=
  ⟨by decide, strictTruncate_empty_cases.1 [97] (-2) (by decide)⟩

/-- Inserting one element grows the length by one. -/
theorem length_insertByEndDesc (x : Conversation) :
    ∀ l, (insertByEndDesc x l).length = l.length + 1
  | [] => rfl
  | y :: ys => by
    simp only [insertByEndDesc]
    split
    · simp
    · simp [length_insertByEndDesc x ys]

/-- Sorting preserves the length. -/
theorem length_sortByEndTimeDesc : ∀ l, (sortByEndTimeDesc l).length = l.length
  | [] => rfl
  | x :: xs => by
    simp [sortByEndTimeDesc, length_insertByEndDesc, length_sortByEndTimeDesc xs]

/-- The clamped slice of the source equals the plain drop-take slice. -/
theorem slice_clamp {α : Type} (l : List α) (limit offset : Nat) :
    (l.drop (min offset l.length)).take (min (min offset l.length + limit) l.length - min offset l.length) =
    (l.drop offset).take limit := by
  rcases le_or_lt l.length offset with hle | hlt
  · rw [min_eq_right hle, List.drop_length, List.drop_eq_nil_of_le hle]
    simp
  · rw [min_eq_left hlt.le, List.take_eq_take, List.length_drop]
    omega

/-- C3: for every collected list, limit, offset and optional project-path
filter, getPaginatedConversations returns exactly the contiguous slice
[offset, offset + limit) of the list getAllConversations returns for the
same filter (filtered by exact projectPath equality, sorted descending by
endTime), and its total is the exact count of the filtered set. -/
theorem paginated_is_slice_of_all :
    ∀ (collected : List Conversation) (limit offset : Nat) (filter : Option String),
      (getPaginatedConversations collected limit offset filter).1 =
        ((getAllConversations collected filter).drop offset).take limit ∧
      (getPaginatedConversations collected limit offset filter).2 =
        (applyDirFilter filter collected).length := by
  intro collected limit offset filter
  exact ⟨slice_clamp (sortByEndTimeDesc (applyDirFilter filter collected)) limit offset,
    length_sortByEndTimeDesc (applyDirFilter filter collected)⟩

/-- C4: with a known (non-empty) version the new rollout format is
selected iff compareSemver(version, "0.32.0") >= 0, pre-release metadata
ignored, so 0.31.9 selects legacy while 0.32.0 and 0.32.0-beta select
new regardless of the local filesystem; with a null version the local-log
heuristic decides, a sampled file whose first line carries session_meta
selects new, and with no local evidence the default is legacy. -/
theorem format_detection_matches_spec :
    (∀ v : String, v ≠ "" → ∀ fs : LocalFS,
      isCodexNewRolloutFormat (some v) fs = decide (compareSemver v "0.32.0" ≥ 0)) ∧
    (∀ fs : LocalFS, isCodexNewRolloutFormat (some "0.31.9") fs = false) ∧
    (∀ fs : LocalFS, isCodexNewRolloutFormat (some "0.32.0") fs = true) ∧
    (∀ fs : LocalFS, isCodexNewRolloutFormat (some "0.32.0-beta") fs = true) ∧
    (∀ fs : LocalFS, isCodexNewRolloutFormat none fs = guessFromLocalLogs fs) ∧
    guessFromLocalLogs exNewFormatFS = true ∧
    guessFromLocalLogs exEmptyFS = false := by
  refine ⟨?_, ?_, ?_, ?_, fun _ => rfl, by decide, by decide⟩
  · intro v hv fs
    rw [isCodexNewRolloutFormat, if_neg hv]
  · intro fs
    rw [isCodexNewRolloutFormat, if_neg (by decide)]
    decide
  · intro fs
    rw [isCodexNewRolloutFormat, if_neg (by decide)]
    decide
  · intro fs
    rw [isCodexNewRolloutFormat, if_neg (by decide)]
    decide

/-- Witness for C4 discharging the non-empty-version hypothesis at
version 0.31.9 over the empty tree. -/
theorem format_detection_matches_spec_witness :
    isCodexNewRolloutFormat (some "0.31.9") exEmptyFS =
      decide (compareSemver "0.31.9" "0.32.0" ≥ 0) :=
  format_detection_matches_spec.1 "0.31.9" (by decide) exEmptyFS

/-- C8: whenever the first non-blank line is not a parseable record whose
type is session_meta, the rollout parser returns null regardless of all
remaining lines. -/
theorem rollout_requires_session_meta :
    ∀ (ctx : ReadCtx) (first : Option Json) (rest : List (Option Json)),
      firstIsSessionMeta first = false →
      readConversationNew ctx (first :: rest) = none := by
  intro ctx first rest hf
  match first with
  | none => rfl
  | some j =>
    simp only [firstIsSessionMeta] at hf
    have hcond : (j.truthy && fieldIsStr j "type" "session_meta" &&
        jsTruthy (j.getField "payload") &&
        ((j.getField "payload").getD .undef).isObjLike) = false := by
      rw [hf]
      simp
    simp [readConversationNew, hcond]

/-- Witness for C8: a first line of a different record type. -/
theorem rollout_requires_session_meta_witness :
    readConversationNew plainCtx [some (.obj [("type", .str "message")])] = none :=
  rollout_requires_session_meta plainCtx (some (.obj [("type", .str "message")])) [] (by decide)

/-- C9: the legacy parser never produces an empty conversation: any
successfully parsed conversation has at least one kept message, and the
concrete file whose only message content is an environment_context-tagged
user message parses to null. -/
theorem legacy_no_empty_conversation :
    (∀ (ctx : ReadCtx) (lines : List (Option Json)) (conv : Conversation),
       readConversationLegacy ctx lines = some conv → conv.messages ≠ []) ∧
    (readConversationLegacy plainCtx exEnvOnlyLines).isNone = true := by
  constructor
  · intro ctx lines conv h
    unfold readConversationLegacy at h
    split at h
    · exact absurd h (by simp)
    · obtain ⟨st, _, hb⟩ := Option.bind_eq_some.mp h
      unfold buildLegacyConversation at hb
      split at hb
      · exact absurd hb (by simp)
      · rename_i hempty
        split at hb
        · exact absurd hb (by simp)
        · injection hb with h2
          subst h2
          simpa using hempty
  · decide

/-- Witness for C9: the two-message legacy file parses successfully and
its message list is non-empty. -/
theorem legacy_no_empty_conversation_witness :
    ((readConversationLegacy plainCtx exLegacyOkLines).getD emptyConv).messages ≠ [] :=
  legacy_no_empty_conversation.1 plainCtx exLegacyOkLines _ rfl

/-- What a successful legacy message push does to the loop state. -/
theorem pushLegacyMessage_spec (sid : Json) (sMs : Option Int) (st : LegacySt)
    (role : String) (items : List Json) (st1 : LegacySt)
    (h : pushLegacyMessage sid sMs st role items = some st1) :
    st1.cwdFromIntro = st.cwdFromIntro ∧ st1.counter = st.counter + 1 ∧
    ∃ v m, sMs = some v ∧ m.timestamp = Timestamp.synth (v + st.counter) ∧
      st1.messages = st.messages ++ [m] := by
  cases sMs with
  | none => exact absurd h (by simp [pushLegacyMessage, mkLegacyTs])
  | some v =>
    simp only [pushLegacyMessage, mkLegacyTs, Option.map_some'] at h
    injection h with h1
    subst h1
    exact ⟨rfl, rfl, v, _, rfl, rfl, rfl⟩

/-- What one successful legacy step does to the state: the tracked cwd is
updated exactly by the record's marker, the counter never decreases, and
the message list either is unchanged or grows by one message stamped with
the current counter. -/
theorem legacyStep_spec (sid : Json) (sMs : Option Int) (ctx : ReadCtx) (st : LegacySt)
    (line : Option Json) (st1 : LegacySt)
    (h : legacyStep sid sMs ctx st line = some st1) :
    (st1.cwdFromIntro = match userMsgMarker line with
       | some v => some v
       | none => st.cwdFromIntro) ∧
    st.counter ≤ st1.counter ∧
    (st1.messages = st.messages ∨
     ∃ v m, sMs = some v ∧ m.timestamp = Timestamp.synth (v + st.counter) ∧
       st1.messages = st.messages ++ [m] ∧ st1.counter = st.counter + 1) := by
  cases line with
  | none =>
    injection h with h1
    subst h1
    exact ⟨by simp [userMsgMarker], le_refl _, Or.inl rfl⟩
  | some j =>
    simp only [legacyStep] at h
    by_cases hg1 : (!j.truthy || !j.isObjLike) = true
    · rw [if_pos hg1] at h
      injection h with h1
      subst h1
      exact ⟨by simp [userMsgMarker, hg1], le_refl _, Or.inl rfl⟩
    · rw [if_neg hg1] at h
      by_cases hg2 : fieldIsStr j "record_type" "state" = true
      · rw [if_pos hg2] at h
        injection h with h1
        subst h1
        exact ⟨by simp [userMsgMarker, hg1, hg2], le_refl _, Or.inl rfl⟩
      · rw [if_neg hg2] at h
        by_cases hg3 : fieldIsStr j "type" "reasoning" = true
        · rw [if_pos hg3] at h
          injection h with h1
          subst h1
          exact ⟨by simp [userMsgMarker, hg1, hg2, hg3], le_refl _, Or.inl rfl⟩
        · rw [if_neg hg3] at h
          by_cases hg4 : (fieldIsStr j "type" "message" &&
              (fieldIsStr j "role" "user" || fieldIsStr j "role" "assistant")) = true
          · rw [if_pos hg4] at h
            have h4a : fieldIsStr j "type" "message" = true := by
              cases hx : fieldIsStr j "type" "message" with
              | true => rfl
              | false => rw [hx] at hg4; simp at hg4
            by_cases hg5 : fieldIsStr j "role" "user" = true
            · rw [if_pos hg5] at h
              cases hscan : scanItemsForCwd (contentItems j) with
              | none => rw [hscan] at h; exact absurd h (by simp)
              | some found =>
                rw [hscan] at h
                cases henv : scanItemsForEnv (contentItems j) with
                | none => rw [henv] at h; exact absurd h (by simp)
                | some b =>
                  rw [henv] at h
                  cases b with
                  | true =>
                    injection h with h1
                    subst h1
                    refine ⟨?_, by simp [applyCwdFound], Or.inl (by simp [applyCwdFound])⟩
                    simp [userMsgMarker, hg1, hg2, hg3, h4a, hg5, hscan, applyCwdFound]
                  | false =>
                    obtain ⟨hc, hcnt, v, m, hv, hts, happ⟩ :=
                      pushLegacyMessage_spec _ _ _ _ _ _ h
                    simp only [applyCwdFound] at hc hcnt hts happ
                    refine ⟨?_, by omega, Or.inr ⟨v, m, hv, hts, happ, hcnt⟩⟩
                    rw [hc]
                    simp [userMsgMarker, hg1, hg2, hg3, h4a, hg5, hscan]
            · rw [if_neg hg5] at h
              obtain ⟨hc, hcnt, v, m, hv, hts, happ⟩ := pushLegacyMessage_spec _ _ _ _ _ _ h
              refine ⟨?_, by omega, Or.inr ⟨v, m, hv, hts, happ, hcnt⟩⟩
              rw [hc]
              simp [userMsgMarker, hg1, hg2, hg3, h4a, hg5]
          · rw [if_neg hg4] at h
            by_cases hg6 : fieldIsStr j "type" "function_call" = true
            · rw [if_pos hg6] at h
              cases sMs with
              | none => exact absurd h (by simp [mkLegacyTs])
              | some v =>
                simp only [mkLegacyTs, Option.map_some'] at h
                injection h with h1
                subst h1
                exact ⟨by simp [userMsgMarker, hg1, hg2, hg3, hg4], Nat.le_succ _,
                  Or.inr ⟨v, _, rfl, rfl, rfl, rfl⟩⟩
            · rw [if_neg hg6] at h
              by_cases hg7 : fieldIsStr j "type" "function_call_output" = true
              · rw [if_pos hg7] at h
                cases sMs with
                | none => exact absurd h (by simp [mkLegacyTs])
                | some v =>
                  simp only [mkLegacyTs, Option.map_some'] at h
                  injection h with h1
                  subst h1
                  exact ⟨by simp [userMsgMarker, hg1, hg2, hg3, hg4], Nat.le_succ _,
                    Or.inr ⟨v, _, rfl, rfl, rfl, rfl⟩⟩
              · rw [if_neg hg7] at h
                injection h with h1
                subst h1
                exact ⟨by simp [userMsgMarker, hg1, hg2, hg3, hg4], le_refl _, Or.inl rfl⟩

/-- Over the whole loop, the tracked cwd is the fold of the per-record
markers: the last record with a marker wins. -/
theorem legacyFold_cwd : ∀ (lines : List (Option Json)) (sid : Json) (sMs : Option Int)
    (ctx : ReadCtx) (st st' : LegacySt),
    legacyFold sid sMs ctx lines st = some st' →
    st'.cwdFromIntro = lines.foldl (fun acc line => match userMsgMarker line with
      | some v => some v
      | none => acc) st.cwdFromIntro
  | [], _, _, _, _, _, h => by
    injection h with h1
    subst h1
    rfl
  | line :: rest, sid, sMs, ctx, st, st', h => by
    simp only [legacyFold] at h
    cases hstep : legacyStep sid sMs ctx st line with
    | none => rw [hstep] at h; exact absurd h (by simp)
    | some st1 =>
      rw [hstep] at h
      have hc := (legacyStep_spec _ _ _ _ _ _ hstep).1
      have hrec := legacyFold_cwd rest sid sMs ctx st1 st' h
      rw [hrec, List.foldl_cons, hc]

/-- C5 (amended): in the legacy parser the conversation's project path is
the marker of the LAST user message containing a cwd marker, in record
order: each later marker overrides the earlier value, and the empty
string stands in when no marker exists. -/
theorem legacy_project_path_is_last_marker :
    ∀ (ctx : ReadCtx) (lines : List (Option Json)) (conv : Conversation),
      readConversationLegacy ctx lines = some conv →
      conv.projectPath = jsOr (lastCwdMarker lines) "" := by
  intro ctx lines conv h
  unfold readConversationLegacy at h
  split at h
  · exact absurd h (by simp)
  · obtain ⟨st, hf, hb⟩ := Option.bind_eq_some.mp h
    have hcwd := legacyFold_cwd _ _ _ _ _ _ hf
    unfold buildLegacyConversation at hb
    split at hb
    · exact absurd hb (by simp)
    · split at hb
      · exact absurd hb (by simp)
      · injection hb with h2
        subst h2
        unfold lastCwdMarker
        rw [← hcwd]

/-- Witness for the amended C5 at the two-marker file. -/
theorem legacy_project_path_is_last_marker_witness :
    ((readConversationLegacy plainCtx exTwoMarkerLines).getD emptyConv).projectPath =
      jsOr (lastCwdMarker exTwoMarkerLines) "" :=
  legacy_project_path_is_last_marker plainCtx exTwoMarkerLines _ rfl

/-- C5 counterexample: with markers /a then /b in two successive user
messages, the resulting projectPath is /b, not the first marker /a. -/
theorem legacy_project_path_not_first_marker :
    (readConversationLegacy plainCtx exTwoMarkerLines).map Conversation.projectPath = some "/b" ∧
    firstCwdMarker exTwoMarkerLines = some "/a" ∧ ("/b" : String) ≠ "/a" := by
  refine ⟨by decide, by decide, by decide⟩

/-- Appending a freshly stamped message preserves the legacy invariant. -/
theorem msgInv_append (sMs : Option Int) (oldMsgs : List Message) (c : Nat) (v : Int)
    (m : Message) (hv : sMs = some v) (hts : m.timestamp = Timestamp.synth (v + c))
    (hb : ∀ m' ∈ oldMsgs, ∃ ms v', sMs = some v' ∧
      m'.timestamp = Timestamp.synth ms ∧ ms < v' + c)
    (hchain : StrictlyIncreasing oldMsgs) :
    (∀ m' ∈ oldMsgs ++ [m], ∃ ms v', sMs = some v' ∧
      m'.timestamp = Timestamp.synth ms ∧ ms < v' + (c + 1)) ∧
    StrictlyIncreasing (oldMsgs ++ [m]) := by
  constructor
  · intro m' hm'
    rcases List.mem_append.mp hm' with hm' | hm'
    · obtain ⟨ms, v', hv', hts', hlt⟩ := hb m' hm'
      exact ⟨ms, v', hv', hts', by omega⟩
    · rw [List.mem_singleton.mp hm']
      exact ⟨v + c, v, hv, hts, by omega⟩
  · refine List.chain'_append.mpr ⟨hchain, List.chain'_singleton m, ?_⟩
    intro x hx y hy
    simp at hy
    subst hy
    obtain ⟨ms, v', hv', hts', hlt⟩ := hb x (List.mem_of_mem_getLast? hx)
    rw [hv] at hv'
    injection hv' with hv'
    subst hv'
    rw [hts', hts]
    simp [tsLt]
    omega

/-- The legacy loop preserves the invariant. -/
theorem legacyFold_inv : ∀ (lines : List (Option Json)) (sid : Json) (sMs : Option Int)
    (ctx : ReadCtx) (st st' : LegacySt),
    legacyFold sid sMs ctx lines st = some st' →
    LegacyMsgInv sMs st → LegacyMsgInv sMs st'
  | [], _, _, _, _, _, h, hinv => by
    injection h with h1
    subst h1
    exact hinv
  | line :: rest, sid, sMs, ctx, st, st', h, hinv => by
    simp only [legacyFold] at h
    cases hstep : legacyStep sid sMs ctx st line with
    | none => rw [hstep] at h; exact absurd h (by simp)
    | some st1 =>
      rw [hstep] at h
      obtain ⟨-, hle, hmsg⟩ := legacyStep_spec _ _ _ _ _ _ hstep
      refine legacyFold_inv rest sid sMs ctx st1 st' h ?_
      unfold LegacyMsgInv at hinv ⊢
      rcases hmsg with hmsg | ⟨v, m, hv, hts, happ, hcnt⟩
      · refine ⟨?_, hmsg ▸ hinv.2⟩
        intro m hm
        rw [hmsg] at hm
        obtain ⟨ms, v', hv', hts', hlt⟩ := hinv.1 m hm
        exact ⟨ms, v', hv', hts', by omega⟩
      · rw [happ, hcnt]
        exact msgInv_append sMs st.messages st.counter v m hv hts hinv.1 hinv.2

/-- What one successful rollout step does to the state when the record
carries no raw timestamp: the counter never decreases and the message
list either is unchanged or grows by one message stamped with the current
counter. -/
theorem rolloutStep_spec (sid : String) (sMs : Option Int) (cwd : String) (ctx : ReadCtx)
    (st : RollSt) (line : Option Json) (st1 : RollSt)
    (hts : hasStrTimestamp line = false)
    (h : rolloutStep sid sMs cwd ctx st line = some st1) :
    st.counter ≤ st1.counter ∧
    (st1.messages = st.messages ∨
     ∃ v m, sMs = some v ∧ m.timestamp = Timestamp.synth (v + st.counter) ∧
       st1.messages = st.messages ++ [m] ∧ st1.counter = st.counter + 1) := by
  cases line with
  | none =>
    injection h with h1
    subst h1
    exact ⟨le_refl _, Or.inl rfl⟩
  | some j =>
    simp only [rolloutStep] at h
    by_cases hg0 : (!j.truthy || !j.isObjLike) = true
    · rw [if_pos hg0] at h
      injection h with h1
      subst h1
      exact ⟨le_refl _, Or.inl rfl⟩
    · rw [if_neg hg0] at h
      have hnone : (j.getField "timestamp").bind Json.asStr = none := by
        simp only [hasStrTimestamp] at hts
        cases hx : (j.getField "timestamp").bind Json.asStr with
        | none => rfl
        | some s => rw [hx] at hts; simp at hts
      rw [mkRolloutTs, hnone] at h
      cases sMs with
      | none => exact absurd h (by simp)
      | some v =>
        simp only [Option.map_some'] at h
        set pl := (j.getField "payload").getD Json.undef with hpl
        set pt := (match (pl.getField "type").bind Json.asStr with
          | some t => asciiLowercase t
          | none => "") with hpt
        clear_value pl pt
        by_cases c0 : (fieldIsStr j "type" "response_item" && jsTruthy (j.getField "payload") &&
            pl.isObjLike) = true
        · rw [if_pos c0] at h
          by_cases c1 : (decide (pt = "message") &&
              (fieldIsStr pl "role" "user" || fieldIsStr pl "role" "assistant")) = true
          · rw [if_pos c1] at h
            by_cases c2 : rolloutEnvTest (match pl.getField "content" with
                | some (.arr xs) => xs
                | _ => []) = true
            · rw [if_pos c2] at h
              injection h with h1
              subst h1
              exact ⟨Nat.le_succ _, Or.inl rfl⟩
            · rw [if_neg c2] at h
              injection h with h1
              subst h1
              exact ⟨Nat.le_succ _, Or.inr ⟨v, _, rfl, rfl, rfl, rfl⟩⟩
          · rw [if_neg c1] at h
            by_cases c3 : pt = "reasoning"
            · rw [if_pos c3] at h
              injection h with h1
              subst h1
              exact ⟨Nat.le_succ _, Or.inl rfl⟩
            · rw [if_neg c3] at h
              by_cases c4 : pt = "function_call"
              · rw [if_pos c4] at h
                injection h with h1
                subst h1
                exact ⟨Nat.le_succ _, Or.inr ⟨v, _, rfl, rfl, rfl, rfl⟩⟩
              · rw [if_neg c4] at h
                by_cases c5 : pt = "function_call_output"
                · rw [if_pos c5] at h
                  injection h with h1
                  subst h1
                  exact ⟨Nat.le_succ _, Or.inr ⟨v, _, rfl, rfl, rfl, rfl⟩⟩
                · rw [if_neg c5] at h
                  by_cases c6 : pt = "custom_tool_call"
                  · rw [if_pos c6] at h
                    injection h with h1
                    subst h1
                    exact ⟨Nat.le_succ _, Or.inr ⟨v, _, rfl, rfl, rfl, rfl⟩⟩
                  · rw [if_neg c6] at h
                    by_cases c7 : pt = "custom_tool_call_output"
                    · rw [if_pos c7] at h
                      injection h with h1
                      subst h1
                      exact ⟨Nat.le_succ _, Or.inr ⟨v, _, rfl, rfl, rfl, rfl⟩⟩
                    · rw [if_neg c7] at h
                      by_cases c8 : pt = "local_shell_call"
                      · rw [if_pos c8] at h
                        injection h with h1
                        subst h1
                        exact ⟨Nat.le_succ _, Or.inr ⟨v, _, rfl, rfl, rfl, rfl⟩⟩
                      · rw [if_neg c8] at h
                        by_cases c9 : pt = "web_search_call"
                        · rw [if_pos c9] at h
                          injection h with h1
                          subst h1
                          exact ⟨Nat.le_succ _, Or.inr ⟨v, _, rfl, rfl, rfl, rfl⟩⟩
                        · rw [if_neg c9] at h
                          injection h with h1
                          subst h1
                          exact ⟨Nat.le_succ _, Or.inl rfl⟩
        · rw [if_neg c0] at h
          by_cases cE : fieldIsStr j "type" "event_msg" = true
          · rw [if_pos cE] at h
            injection h with h1
            subst h1
            exact ⟨Nat.le_succ _, Or.inl rfl⟩
          · rw [if_neg cE] at h
            injection h with h1
            subst h1
            exact ⟨le_refl _, Or.inl rfl⟩

/-- The rollout loop preserves the invariant when no record carries a raw
timestamp. -/
theorem rolloutFold_inv : ∀ (lines : List (Option Json)) (sid : String) (sMs : Option Int)
    (cwd : String) (ctx : ReadCtx) (st st' : RollSt),
    (∀ l ∈ lines, hasStrTimestamp l = false) →
    rolloutFold sid sMs cwd ctx lines st = some st' →
    RolloutMsgInv sMs st → RolloutMsgInv sMs st'
  | [], _, _, _, _, _, _, _, h, hinv => by
    injection h with h1
    subst h1
    exact hinv
  | line :: rest, sid, sMs, cwd, ctx, st, st', hall, h, hinv => by
    simp only [rolloutFold] at h
    cases hstep : rolloutStep sid sMs cwd ctx st line with
    | none => rw [hstep] at h; exact absurd h (by simp)
    | some st1 =>
      rw [hstep] at h
      obtain ⟨hle, hmsg⟩ := rolloutStep_spec _ _ _ _ _ _ _
        (hall line (List.mem_cons_self _ _)) hstep
      refine rolloutFold_inv rest sid sMs cwd ctx st1 st' (fun l hl => hall l (List.mem_cons_of_mem _ hl)) h ?_
      unfold RolloutMsgInv at hinv ⊢
      rcases hmsg with hmsg | ⟨v, m, hv, hts, happ, hcnt⟩
      · refine ⟨?_, hmsg ▸ hinv.2⟩
        intro m hm
        rw [hmsg] at hm
        obtain ⟨ms, v', hv', hts', hlt⟩ := hinv.1 m hm
        exact ⟨ms, v', hv', hts', by omega⟩
      · rw [happ, hcnt]
        exact msgInv_append sMs st.messages st.counter v m hv hts hinv.1 hinv.2

/-- A built legacy conversation carries exactly the loop's messages. -/
theorem buildLegacyConversation_messages (ctx : ReadCtx) (meta : Option Json)
    (st : LegacySt) (conv : Conversation)
    (h : buildLegacyConversation ctx meta st = some conv) :
    conv.messages = st.messages := by
  unfold buildLegacyConversation at h
  split at h
  · exact absurd h (by simp)
  · split at h
    · exact absurd h (by simp)
    · injection h with h1
      subst h1
      rfl

/-- A built rollout conversation carries exactly the loop's messages. -/
theorem buildRolloutConversation_messages (ctx : ReadCtx) (meta : RolloutMeta)
    (st : RollSt) (conv : Conversation)
    (h : buildRolloutConversation ctx meta st = some conv) :
    conv.messages = st.messages := by
  unfold buildRolloutConversation at h
  split at h
  · exact absurd h (by simp)
  · injection h with h1
    subst h1
    rfl

/-- C7 (amended): the message sequence of any conversation produced by
the legacy parser is strictly monotonically increasing by its synthesized
timestamps; the rollout parser guarantees the same whenever no record
carries its own raw timestamp (all synthesized), but a raw per-record
timestamp takes precedence over synthesis, so with raw timestamps the
order is only as strict as the timestamps in the file. -/
theorem timestamps_strictly_increase_when_synthesized :
    (∀ (ctx : ReadCtx) (lines : List (Option Json)) (conv : Conversation),
       readConversationLegacy ctx lines = some conv → StrictlyIncreasing conv.messages) ∧
    (∀ (ctx : ReadCtx) (lines : List (Option Json)) (conv : Conversation),
       (∀ l ∈ lines, hasStrTimestamp l = false) →
       readConversationNew ctx lines = some conv → StrictlyIncreasing conv.messages) := by
  constructor
  · intro ctx lines conv h
    unfold readConversationLegacy at h
    split at h
    · exact absurd h (by simp)
    · obtain ⟨st, hf, hb⟩ := Option.bind_eq_some.mp h
      have hinv := legacyFold_inv _ _ _ _ _ _ hf
        ⟨by intro m hm; exact absurd hm (by simp), List.chain'_nil⟩
      rw [buildLegacyConversation_messages _ _ _ _ hb]
      exact hinv.2
  · intro ctx lines conv hall h
    unfold readConversationNew at h
    split at h
    · exact absurd h (by simp)
    · split at h
      · exact absurd h (by simp)
      · split at h
        · obtain ⟨st, hf, hb⟩ := Option.bind_eq_some.mp h
          have hinv := rolloutFold_inv _ _ _ _ _ _ _
            (fun l hl => hall l (by simp; exact Or.inr hl)) hf
            ⟨by intro m hm; exact absurd hm (by simp), List.chain'_nil⟩
          rw [buildRolloutConversation_messages _ _ _ _ hb]
          exact hinv.2
        · exact absurd h (by simp)

/-- C7 counterexample: a rollout file in which two records carry the same
raw timestamp parses to a conversation whose two messages have equal
timestamps, so the sequence is not strictly monotonically increasing. -/
theorem rollout_equal_raw_timestamps_not_strict :
    (readConversationNew plainCtx exEqualTsLines).map (fun c => c.messages.map Message.timestamp) =
      some [.real "2025-01-01T00:00:00.000Z", .real "2025-01-01T00:00:00.000Z"] ∧
    ¬ StrictlyIncreasing (((readConversationNew plainCtx exEqualTsLines).getD emptyConv).messages) := by
  constructor
  · decide
  · intro hchain
    have hS : List.Chain' (fun a b : Timestamp => tsLt a b = true)
        ((((readConversationNew plainCtx exEqualTsLines).getD emptyConv).messages).map
          Message.timestamp) :=
      (List.chain'_map _).mpr hchain
    have hmap : ((((readConversationNew plainCtx exEqualTsLines).getD emptyConv).messages).map
        Message.timestamp) =
        [Timestamp.real "2025-01-01T00:00:00.000Z", Timestamp.real "2025-01-01T00:00:00.000Z"] := by
      decide
    rw [hmap] at hS
    exact absurd (List.chain'_cons.mp hS).1 (by decide)

/-- Witness for the amended C7: the legacy file and the all-synthesized
rollout file both produce strictly increasing message sequences. -/
theorem timestamps_strictly_increase_when_synthesized_witness :
    StrictlyIncreasing (((readConversationLegacy plainCtx exLegacyOkLines).getD emptyConv).messages) ∧
    StrictlyIncreasing (((readConversationNew plainCtx exSynthRolloutLines).getD emptyConv).messages) :=
  ⟨timestamps_strictly_increase_when_synthesized.1 plainCtx exLegacyOkLines _ rfl,
   timestamps_strictly_increase_when_synthesized.2 plainCtx exSynthRolloutLines _ (by decide) rfl⟩
